import Mathlib

/-!
Verification of the polygon-to-pixel extraction core of the NEF ROI extractor.

The development shallowly embeds the program's core functions:
* the even-odd ray-casting containment test (spec §4.1),
* `extract_pixels_from_polygon` and `get_polygon_centroid`
  (`nef_extractor/utils/polygon.py`),
* `export_data` (`nef_extractor/roi_manager.py`),
* the JSON persistence layer (`nef_extractor/utils/file_io.py` together with
  `ROIManager.load_rois`),
* `calculate_white_balance` (`nef_extractor/image_processor.py`),
* `parse_white_balance` (`nef_extractor/cli.py`).

Machine floats are modelled by exact rationals, NumPy rasters by a
`height`/`width`-indexed value function, and parsed JSON by an inductive
`JValue` type.
-/

namespace NefExtractor

/-! ### Geometry engine -/

/-- A 2-D point in raster pixel-coordinate space, `(x, y)` with x = column and
y = row.  Machine floats are modelled by exact rationals. -/
abbrev Pt := ℚ × ℚ

/-- Modelled from the spec: the single-edge step of the even-odd ray-casting
test performed by the external path-containment library
(`matplotlib.path.Path.contains_points`, not part of this repository).  A ray
cast from `p` in the +x direction crosses the closed edge from `a` to `b` iff
the edge straddles the horizontal line through `p` and the edge's intersection
with that line lies strictly to the right of `p` (the standard strict
boundary convention; the spec leaves boundary-exact points
implementation-defined). -/
def crossesRay (p a b : Pt) : Bool :=
  (decide (p.2 < a.2) != decide (p.2 < b.2)) &&
    decide (p.1 < a.1 + (p.2 - a.2) * (b.1 - a.1) / (b.2 - a.2))

/-- Consecutive pairs of a list: `adjPairs [a, b, c] = [(a, b), (b, c)]`. -/
def adjPairs : List α → List (α × α)
  | a :: b :: rest => (a, b) :: adjPairs (b :: rest)
  | _ => []

/-- The edges of a polygon, the implicit closing edge from the last vertex
back to the first included (spec §3: the polygon is not required to be closed
explicitly). -/
def closedEdges : List Pt → List (Pt × Pt)
  | [] => []
  | v :: rest => adjPairs ((v :: rest) ++ [v])

/-- Modelled from the spec: the even-odd (crossing-number) containment test of
the external path library — a point is inside iff a +x ray from it crosses
the polygon boundary an odd number of times (spec §4.1). -/
def containsPoint (polygon : List Pt) (p : Pt) : Bool :=
  ((closedEdges polygon).countP fun e => crossesRay p e.1 e.2) % 2 == 1

/-! ### Raster, pixel records and extraction -/

/-- An RGB raster of shape `height × width × 3`, indexed `[row, column,
channel]` (spec §3); `data y x c` is the sample value at row `y`, column `x`,
channel `c`. -/
structure Raster where
  height : Nat
  width : Nat
  data : Nat → Nat → Nat → ℤ

/-- One exported row: `{file_name, roi_label, channel, x, y, pixel_value}`. -/
structure PixelRecord where
  file_name : String
  roi_label : String
  channel : String
  x : Nat
  y : Nat
  pixel_value : ℤ
deriving DecidableEq, Repr

/-- `"RGB"[c]` from the source loop (`c` ranges over `range 3`). -/
def channelName : Nat → String
  | 0 => "R"
  | 1 => "G"
  | 2 => "B"
  | _ => ""

/-- `extract_pixels_from_polygon` (`nef_extractor/utils/polygon.py`): builds
the full pixel grid row-major (`np.mgrid[:height, :width]`, ravelled), keeps
the points inside the polygon (`Path.contains_points`), and for each kept
point emits one record per channel `c in range(3)` carrying
`image[y, x, c]`. -/
def extract_pixels_from_polygon (image : Raster) (polygon : List Pt)
    (roi_label : String) (file_name : String) : List PixelRecord :=
  let points := (List.range image.height).flatMap fun y =>
    (List.range image.width).map fun x => (x, y)
  let points_inside := points.filter fun q =>
    containsPoint polygon ((q.1 : ℚ), (q.2 : ℚ))
  points_inside.flatMap fun q =>
    (List.range 3).map fun c =>
      { file_name := file_name
        roi_label := roi_label
        channel := channelName c
        x := q.1
        y := q.2
        pixel_value := image.data q.2 q.1 c }

/-- `np.mean(vertices, axis=0)`: the component-wise arithmetic mean of a list
of points. -/
def npMeanAxis0 (vertices : List Pt) : Pt :=
  ((vertices.map Prod.fst).sum / vertices.length,
   (vertices.map Prod.snd).sum / vertices.length)

/-- `get_polygon_centroid` (`nef_extractor/utils/polygon.py`): the arithmetic
mean of all vertex coordinates. -/
def get_polygon_centroid (vertices : List Pt) : Pt :=
  npMeanAxis0 vertices

/-! ### ROI store and the export pipeline -/

/-- A labelled region of interest: the dict `{"label": ..., "polygon": ...}`
built by `ROIManager.finish_roi_creation`. -/
structure ROI where
  label : String
  polygon : List Pt
deriving DecidableEq, Repr

/-- An ROI collection tied to one source image (spec §3): the
`(file_name, rois, white_balance)` session state of `ROIManager` that
`save_rois_to_json` persists. -/
structure ROICollection where
  file_name : String
  rois : List ROI
  white_balance : Option (ℚ × ℚ × ℚ)
deriving DecidableEq, Repr

/-- The data-collection loop of `ROIManager.export_data`
(`nef_extractor/roi_manager.py`): walks the ROIs in collection order,
extends `all_data` with each ROI's extracted records, and records the per-ROI
status count `len(roi_data) // 3`. -/
def export_data (rgb : Raster) (rois : List ROI) (file_name : String) :
    List PixelRecord × List Nat :=
  rois.foldl
    (fun acc roi =>
      let roi_data := extract_pixels_from_polygon rgb roi.polygon roi.label file_name
      (acc.1 ++ roi_data, acc.2 ++ [roi_data.length / 3]))
    ([], [])

/-! ### JSON persistence

`save_rois_to_json` serialises the session to a JSON object and
`ROIManager.load_rois` consumes the parsed value again.  `JValue` models a
parsed Python JSON value (`json.load` output); an `obj` is the parsed dict,
association-list ordered. -/

inductive JValue where
  | null
  | boolean (b : Bool)
  | num (q : ℚ)
  | str (s : String)
  | arr (elems : List JValue)
  | obj (fields : List (String × JValue))
deriving Repr

/-- Python `dict.get`: the value stored under `key`, if present. -/
def jsonGet (fields : List (String × JValue)) (key : String) : Option JValue :=
  (fields.find? fun kv => kv.1 == key).map Prod.snd

/-- Python truthiness of an optional JSON value (`None`, `null`, `False`,
`0`, `""`, `[]` and `{}` are falsy). -/
def jTruthy : Option JValue → Bool
  | none => false
  | some .null => false
  | some (.boolean b) => b
  | some (.num q) => q != 0
  | some (.str s) => s != ""
  | some (.arr l) => !l.isEmpty
  | some (.obj f) => !f.isEmpty

/-- The Python exceptions that govern `load_rois`' white-balance block:
`KeyError` and `ValueError` are caught by the inner handler, `TypeError`
escapes to the outer one. -/
inductive PyErr where
  | keyError
  | valueError
  | typeError
deriving DecidableEq, Repr

/-- Python subscription `v[key]` with a string key: looks the key up in a
dict (`KeyError` when absent) and raises `TypeError` on every non-dict
value. -/
def pyIndex (v : JValue) (key : String) : Except PyErr JValue :=
  match v with
  | .obj fields =>
      match jsonGet fields key with
      | some w => .ok w
      | none => .error .keyError
  | _ => .error .typeError

/-- Python `float(...)` applied to a parsed JSON value: numbers pass through,
booleans coerce to 0/1, `null`/lists/dicts raise `TypeError`.  Numeric-string
coercion is abstracted as a `ValueError` (the persisted schema stores the
multipliers as JSON numbers, so no claim depends on string coercion). -/
def pyFloat : JValue → Except PyErr ℚ
  | .num q => .ok q
  | .boolean b => .ok (if b then 1 else 0)
  | .str _ => .error .valueError
  | _ => .error .typeError

/-- One vertex `(x, y)` as persisted by `json.dump` (a two-element array). -/
def pointToJson (v : Pt) : JValue :=
  .arr [.num v.1, .num v.2]

/-- One ROI dict as persisted by `json.dump`. -/
def roiToJson (roi : ROI) : JValue :=
  .obj [("label", .str roi.label),
        ("polygon", .arr (roi.polygon.map pointToJson))]

/-- The white-balance block written by `save_rois_to_json`. -/
def wbToJson (wb : ℚ × ℚ × ℚ) : JValue :=
  .obj [("red", .num wb.1), ("green", .num wb.2.1), ("blue", .num wb.2.2)]

/-- The `data` object built by `save_rois_to_json`
(`nef_extractor/utils/file_io.py`): always `file_name` and `rois`, plus the
`white_balance` block only when a white balance is set (`if white_balance:`
— a multiplier triple is a non-empty tuple, always truthy). -/
def save_rois_data (file_name : String) (rois : List ROI)
    (white_balance : Option (ℚ × ℚ × ℚ)) : JValue :=
  .obj (("file_name", .str file_name) ::
        ("rois", .arr (rois.map roiToJson)) ::
        (match white_balance with
         | none => []
         | some wb => [("white_balance", wbToJson wb)]))

/-- Serialisation of a whole collection: `save_rois_to_json`'s data for the
session state (the file write itself is I/O glue outside the core). -/
def serializeCollection (c : ROICollection) : JValue :=
  save_rois_data c.file_name c.rois c.white_balance

/-- Reads one persisted vertex back.  `load_rois` keeps the parsed dicts
as-is; this is the evident interpretation of a stored `[x, y]` pair, the
shape consumed by `np.array(roi["polygon"])` in `export_data`. -/
def pointOfJson : JValue → Option Pt
  | .arr [.num qx, .num qy] => some (qx, qy)
  | _ => none

/-- Reads one persisted ROI dict back into the abstract `ROI`, via the
`roi["label"]` / `roi["polygon"]` accesses that `export_data` and
`draw_existing_rois` perform on the stored dicts. -/
def roiOfJson : JValue → Option ROI
  | .obj fields =>
      match jsonGet fields "label", jsonGet fields "polygon" with
      | some (.str l), some (.arr ps) =>
          (ps.mapM pointOfJson).map fun poly => ⟨l, poly⟩
      | _, _ => none
  | _ => none

/-- The white-balance parse in `ROIManager.load_rois`:
`(float(wb_data["red"]), float(wb_data["green"]), float(wb_data["blue"]))`,
evaluated left to right, the first Python exception winning. -/
def parseWbBlock (v : JValue) : Except PyErr (ℚ × ℚ × ℚ) := do
  let r ← pyFloat (← pyIndex v "red")
  let g ← pyFloat (← pyIndex v "green")
  let b ← pyFloat (← pyIndex v "blue")
  return (r, g, b)

/-- The session state that `ROIManager.load_rois` leaves behind:
whether the file-name mismatch warning was printed, the stored `rois` value
(kept as raw parsed JSON, exactly as the code stores the dicts), the final
white balance, and whether the could-not-load-white-balance warning was
printed. -/
structure LoadResult where
  warned_mismatch : Bool
  rois_data : JValue
  white_balance : Option (ℚ × ℚ × ℚ)
  warned_wb : Bool
deriving Repr

/-- Outcome of `load_rois`: either the normal return or the outer
`except Exception` path (the printed load error), each with the session
state it leaves behind. -/
inductive LoadOutcome where
  | ok (res : LoadResult)
  | error (res : LoadResult)
deriving Repr

/-- The state left behind regardless of outcome. -/
def LoadOutcome.state : LoadOutcome → LoadResult
  | .ok res => res
  | .error res => res

/-- Whether `load_rois` aborted with the outer error message. -/
def LoadOutcome.isError : LoadOutcome → Bool
  | .ok _ => false
  | .error _ => true

/-- `ROIManager.load_rois` (`nef_extractor/roi_manager.py`), as a function of
the parsed JSON value, the open image's base name (`self.file_name`) and the
session's current white balance (`self.white_balance`; `self.rois` is `[]`
when `__init__` invokes the load).  A non-dict top level fails on the first
`data.get` (`AttributeError`, outer handler); a present-and-truthy
`white_balance` is parsed only when no white balance is already set, with
`KeyError`/`ValueError` downgraded to a warning and `TypeError` escaping to
the outer handler. -/
def load_rois (j : JValue) (current_file_name : String)
    (current_wb : Option (ℚ × ℚ × ℚ)) : LoadOutcome :=
  match j with
  | .obj fields =>
      let warned_mismatch :=
        match jsonGet fields "file_name" with
        | some (.str s) => s != current_file_name
        | _ => true
      let rois_data := (jsonGet fields "rois").getD (.arr [])
      let wb_data := jsonGet fields "white_balance"
      if jTruthy wb_data && current_wb.isNone then
        match parseWbBlock (wb_data.getD .null) with
        | .ok wb => .ok ⟨warned_mismatch, rois_data, some wb, false⟩
        | .error .keyError => .ok ⟨warned_mismatch, rois_data, current_wb, true⟩
        | .error .valueError => .ok ⟨warned_mismatch, rois_data, current_wb, true⟩
        | .error .typeError => .error ⟨warned_mismatch, rois_data, current_wb, false⟩
      else
        .ok ⟨warned_mismatch, rois_data, current_wb, false⟩
  | _ => .error ⟨false, .arr [], current_wb, false⟩

/-! ### Calibration adapter (white balance) -/

/-- Python basic slicing `a[start:stop]` of an axis of length `len`
(step 1): negative bounds count from the end, then both are clamped to
`[0, len]`; the result is the list of selected indices. -/
def pySliceIndices (len : Nat) (start stop : ℤ) : List Nat :=
  let norm : ℤ → ℤ := fun i => if i < 0 then i + len else i
  let a : ℤ := min (max (norm start) 0) len
  let b : ℤ := min (max (norm stop) 0) len
  List.range' a.toNat (b - a).toNat

/-- Lines 88–98 of `calculate_white_balance`
(`nef_extractor/image_processor.py`): normalise the channel averages against
green — identity when green is zero, and each of red/blue falls back to `1.0`
unless its average is positive. -/
def derive_multipliers (avgR avgG avgB : ℚ) : ℚ × ℚ × ℚ :=
  if avgG = 0 then (1, 1, 1)
  else ((if 0 < avgR then avgG / avgR else 1), 1,
        (if 0 < avgB then avgG / avgB else 1))

/-- `calculate_white_balance` (`nef_extractor/image_processor.py`): clamps a
`sample_size`-wide window around `(x, y)` with `max`/`min`, slices the
raster, averages each channel (`np.mean(sample, axis=(0, 1))`) and
normalises against green.  `np.mean` of an empty slice is NaN; every
comparison the code then performs on a NaN average (`== 0`, `> 0`) is false,
so the empty-slice case returns `(1.0, 1.0, 1.0)` — the function has no
failure path.  Python `//` is floor division (`Int.fdiv`). -/
def calculate_white_balance (image : Raster) (x y : ℤ)
    (sample_size : ℤ := 5) : ℚ × ℚ × ℚ :=
  let half_size := Int.fdiv sample_size 2
  let x_start := max 0 (x - half_size)
  let x_end := min (image.width : ℤ) (x + half_size + 1)
  let y_start := max 0 (y - half_size)
  let y_end := min (image.height : ℤ) (y + half_size + 1)
  let ys := pySliceIndices image.height y_start y_end
  let xs := pySliceIndices image.width x_start x_end
  let n := ys.length * xs.length
  if n = 0 then (1, 1, 1)
  else
    let mean : Nat → ℚ := fun c =>
      ((ys.flatMap fun yi => xs.map fun xi => image.data yi xi c).sum : ℤ) / (n : ℚ)
    derive_multipliers (mean 0) (mean 1) (mean 2)

/-! ### CLI white-balance string -/

/-- `parse_white_balance` (`nef_extractor/cli.py`).  The input models
`wb_str` after Python's `wb_str.split(",")` and per-token `float(...)`:
`none` is an absent or empty (falsy) string, and each token is `some q` when
`float` accepts it, `none` when it raises `ValueError`.  Wrong arity or a
bad token means the `r, g, b = map(float, ...)` line raises `ValueError`,
which the function turns into `None`; `g == 0` is likewise rejected. -/
def parse_white_balance (tokens : Option (List (Option ℚ))) :
    Option (ℚ × ℚ × ℚ) :=
  match tokens with
  | none => none
  | some [some r, some g, some b] =>
      if g = 0 then none else some (r / g, 1, b / g)
  | some _ => none

/-! ### Concrete test fixtures -/

/-- A 2×2 raster with distinct channel values per pixel. -/
def testImage : Raster := ⟨2, 2, fun y x c => (100 * y + 10 * x + c : ℤ)⟩

/-- The spec §8 triangle. -/
def testTriangle : List Pt := [(0, 0), (3, 0), (0, 3)]

/-- A unit square with fractional corners containing the grid point (1, 1). -/
def testSquare : List Pt := [(1/2, 1/2), (5/2, 1/2), (5/2, 5/2), (1/2, 5/2)]

/-- A triangle entirely to the right of `testImage`. -/
def farTriangle : List Pt := [(5, 5), (6, 5), (6, 6)]

/-- A 4×4 raster whose channels are constant 100/200/50. -/
def flatImage : Raster :=
  ⟨4, 4, fun _ _ c => if c = 0 then 100 else if c = 1 then 200 else 50⟩

/-- Two overlapping ROIs over `testImage`, both containing the pixel (1, 1). -/
def testRois : List ROI := [⟨"a", testSquare⟩, ⟨"b", testTriangle⟩]

/-- A one-ROI collection with a white balance set. -/
def testCollection : ROICollection :=
  ⟨"f.NEF", [⟨"a", [(1, 2), (3, 4)]⟩], some (2, 1, 3)⟩

/-! ### List helper lemmas -/

theorem flatMap_of_filter (l : List α) (p : α → Bool) (g : α → List β) :
    (l.filter p).flatMap g = l.flatMap fun a => if p a then g a else [] := by
  induction l with
  | nil => rfl
  | cons a t ih =>
      rw [List.filter_cons]
      by_cases h : p a = true
      · simp [h, List.flatMap_cons, ih]
      · simp [h, List.flatMap_cons, ih]

theorem sum_map_ite_one (l : List α) (p : α → Bool) :
    (l.map fun a => if p a then 1 else 0).sum = l.countP p := by
  induction l with
  | nil => rfl
  | cons a t ih =>
      by_cases h : p a = true <;> simp [List.countP_cons, h, ih, Nat.add_comm]

theorem mem_of_mem_adjPairs {l : List α} {e : α × α} (h : e ∈ adjPairs l) :
    e.1 ∈ l ∧ e.2 ∈ l := by
  induction l with
  | nil => simp [adjPairs] at h
  | cons a t ih =>
      match t, h with
      | b :: t', h =>
          rw [adjPairs] at h
          rcases List.mem_cons.mp h with h | h
          · subst h
            exact ⟨List.mem_cons_self _ _, List.mem_cons_of_mem _ (List.mem_cons_self _ _)⟩
          · obtain ⟨h1, h2⟩ := ih h
            exact ⟨List.mem_cons_of_mem _ h1, List.mem_cons_of_mem _ h2⟩

/-- Walking a chain from `x` to `y`, the number of adjacent sign flips of a
boolean attribute `f` is even iff `f x = f y`. -/
theorem adjPairs_countP_flips (f : α → Bool) :
    ∀ (l : List α) (x y : α),
      (adjPairs (x :: l ++ [y])).countP (fun e => f e.1 != f e.2) % 2 =
        (if f x = f y then 0 else 1) := by
  intro l
  induction l with
  | nil =>
      intro x y
      show ([(x, y)]).countP _ % 2 = _
      by_cases h : f x = f y <;> simp [List.countP_cons, h]
  | cons a t ih =>
      intro x y
      show ((x, a) :: adjPairs (a :: t ++ [y])).countP _ % 2 = _
      rw [List.countP_cons]
      have ih' := ih a y
      cases hxa : f x <;> cases haa : f a <;> cases hy : f y <;>
        simp [hxa, haa, hy] at ih' ⊢ <;> omega

/-- Around the closed boundary of a polygon, every boolean attribute of the
vertices flips an even number of times. -/
theorem closedEdges_countP_flips_even (f : Pt → Bool) (poly : List Pt) :
    (closedEdges poly).countP (fun e => f e.1 != f e.2) % 2 = 0 := by
  match poly with
  | [] => rfl
  | v :: rest =>
      have h := adjPairs_countP_flips f rest v v
      simp only [if_pos rfl] at h
      exact h

theorem mem_closedEdges {poly : List Pt} {e : Pt × Pt} (h : e ∈ closedEdges poly) :
    e.1 ∈ poly ∧ e.2 ∈ poly := by
  match poly with
  | [] => simp [closedEdges] at h
  | v :: rest =>
      have := mem_of_mem_adjPairs h
      constructor
      · rcases List.mem_append.mp this.1 with h1 | h1
        · exact h1
        · simp at h1
          simp [h1]
      · rcases List.mem_append.mp this.2 with h2 | h2
        · exact h2
        · simp at h2
          simp [h2]

/-! ### Geometry lemmas: when the even-odd test rejects every point -/

theorem not_straddle_of_eq_y {p a b : Pt} (h : a.2 = b.2) :
    (decide (p.2 < a.2) != decide (p.2 < b.2)) = false := by
  rw [h, bne_self_eq_false]

/-- A straddling edge meets the horizontal line through `p` at a convex
combination of the endpoints' x-coordinates. -/
theorem straddle_param (p a b : Pt)
    (hstr : (decide (p.2 < a.2) != decide (p.2 < b.2)) = true) :
    ∃ t : ℚ, 0 ≤ t ∧ t ≤ 1 ∧
      a.1 + (p.2 - a.2) * (b.1 - a.1) / (b.2 - a.2) =
        (1 - t) * a.1 + t * b.1 := by
  have hd : b.2 - a.2 ≠ 0 := by
    intro h0
    rw [not_straddle_of_eq_y (by linarith : a.2 = b.2)] at hstr
    exact Bool.false_ne_true hstr
  have hcases : (¬p.2 < a.2 ∧ p.2 < b.2) ∨ (p.2 < a.2 ∧ ¬p.2 < b.2) := by
    have hne : ¬(p.2 < a.2 ↔ p.2 < b.2) := by
      intro hiff
      rw [decide_eq_decide.mpr hiff] at hstr
      rw [not_straddle_of_eq_y (p := p) (a := b) (b := b) rfl] at hstr
      exact Bool.false_ne_true hstr
    by_cases hP : p.2 < a.2
    · exact Or.inr ⟨hP, fun hQ => hne ⟨fun _ => hQ, fun _ => hP⟩⟩
    · by_cases hQ : p.2 < b.2
      · exact Or.inl ⟨hP, hQ⟩
      · exact absurd ⟨fun h => absurd h hP, fun h => absurd h hQ⟩ hne
  refine ⟨(p.2 - a.2) / (b.2 - a.2), ?_, ?_, by field_simp; ring⟩
  · rcases hcases with ⟨h1, h2⟩ | ⟨h1, h2⟩
    · exact div_nonneg (by linarith) (by linarith)
    · have hnum : p.2 - a.2 < 0 := by linarith
      have hden : b.2 - a.2 < 0 := by linarith
      exact le_of_lt (div_pos_iff.mpr (Or.inr ⟨hnum, hden⟩))
  · rcases hcases with ⟨h1, h2⟩ | ⟨h1, h2⟩
    · have hden : (0 : ℚ) < b.2 - a.2 := by linarith
      exact (div_le_one hden).mpr (by linarith)
    · have hden : b.2 - a.2 < 0 := by linarith
      exact (div_le_one_of_neg hden).mpr (by linarith)

theorem crossesRay_eq_false_of_not_straddle {p a b : Pt}
    (h : (decide (p.2 < a.2) != decide (p.2 < b.2)) = false) :
    crossesRay p a b = false := by
  unfold crossesRay
  rw [h, Bool.false_and]

theorem containsPoint_eq_false_of_no_cross {poly : List Pt} {p : Pt}
    (h : ∀ e ∈ closedEdges poly, crossesRay p e.1 e.2 = false) :
    containsPoint poly p = false := by
  unfold containsPoint
  rw [List.countP_eq_zero.mpr fun e he => by rw [h e he]; exact Bool.false_ne_true]
  rfl

/-- Every vertex on or below the horizontal through `p`: no edge straddles,
so the point is outside. -/
theorem containsPoint_false_of_y_le {poly : List Pt} {p : Pt}
    (h : ∀ v ∈ poly, v.2 ≤ p.2) : containsPoint poly p = false := by
  refine containsPoint_eq_false_of_no_cross fun e he => ?_
  obtain ⟨h1, h2⟩ := mem_closedEdges he
  apply crossesRay_eq_false_of_not_straddle
  rw [decide_eq_false (not_lt.mpr (h _ h1)), decide_eq_false (not_lt.mpr (h _ h2))]
  rfl

/-- Every vertex strictly above the horizontal through `p`: no edge
straddles, so the point is outside. -/
theorem containsPoint_false_of_y_lt {poly : List Pt} {p : Pt}
    (h : ∀ v ∈ poly, p.2 < v.2) : containsPoint poly p = false := by
  refine containsPoint_eq_false_of_no_cross fun e he => ?_
  obtain ⟨h1, h2⟩ := mem_closedEdges he
  apply crossesRay_eq_false_of_not_straddle
  rw [decide_eq_true (h _ h1), decide_eq_true (h _ h2)]
  rfl

/-- Every vertex on or to the left of `p`: the +x ray meets no edge to the
right of `p`, so the point is outside. -/
theorem containsPoint_false_of_x_le {poly : List Pt} {p : Pt}
    (h : ∀ v ∈ poly, v.1 ≤ p.1) : containsPoint poly p = false := by
  refine containsPoint_eq_false_of_no_cross fun e he => ?_
  obtain ⟨h1, h2⟩ := mem_closedEdges he
  by_cases hstr : (decide (p.2 < e.1.2) != decide (p.2 < e.2.2)) = true
  · obtain ⟨t, ht0, ht1, hinter⟩ := straddle_param p e.1 e.2 hstr
    have ha := h _ h1
    have hb := h _ h2
    have k1 : 0 ≤ (1 - t) * (p.1 - e.1.1) :=
      mul_nonneg (by linarith) (by linarith)
    have k2 : 0 ≤ t * (p.1 - e.2.1) := mul_nonneg ht0 (by linarith)
    have hle : (1 - t) * e.1.1 + t * e.2.1 ≤ p.1 := by nlinarith [k1, k2]
    unfold crossesRay
    rw [hinter, decide_eq_false (not_lt.mpr hle), Bool.and_false]
  · exact crossesRay_eq_false_of_not_straddle (Bool.eq_false_iff.mpr hstr)

/-- Every vertex strictly to the right of `p`: the +x ray crosses exactly
the straddling edges, an even number, so the point is outside. -/
theorem containsPoint_false_of_x_lt {poly : List Pt} {p : Pt}
    (h : ∀ v ∈ poly, p.1 < v.1) : containsPoint poly p = false := by
  unfold containsPoint
  have hcong : ∀ e ∈ closedEdges poly,
      (crossesRay p e.1 e.2 = true) ↔
        ((decide (p.2 < e.1.2) != decide (p.2 < e.2.2)) = true) := by
    intro e he
    obtain ⟨h1, h2⟩ := mem_closedEdges he
    by_cases hstr : (decide (p.2 < e.1.2) != decide (p.2 < e.2.2)) = true
    · obtain ⟨t, ht0, ht1, hinter⟩ := straddle_param p e.1 e.2 hstr
      have ha := h _ h1
      have hb := h _ h2
      have hm : p.1 < (1 - t) * e.1.1 + t * e.2.1 := by
        have k1 : 0 ≤ (1 - t) * (e.1.1 - p.1) :=
          mul_nonneg (by linarith) (by linarith)
        have k2 : 0 ≤ t * (e.2.1 - p.1) := mul_nonneg ht0 (by linarith)
        nlinarith [k1, k2, ht0, ht1]
      unfold crossesRay
      rw [hstr, hinter, decide_eq_true hm]
      simp
    · rw [crossesRay_eq_false_of_not_straddle (Bool.eq_false_iff.mpr hstr)]
      simp [hstr]
  rw [List.countP_congr hcong,
    closedEdges_countP_flips_even (fun v => decide (p.2 < v.2)) poly]
  rfl

theorem straddle_y_ne {p a b : Pt}
    (hstr : (decide (p.2 < a.2) != decide (p.2 < b.2)) = true) :
    b.2 - a.2 ≠ 0 := by
  intro h0
  rw [not_straddle_of_eq_y (by linarith : a.2 = b.2)] at hstr
  exact Bool.false_ne_true hstr

/-- On a polygon whose vertices all lie on the line `A*x + B*y = C` with
`A ≠ 0`, every edge meets the horizontal through `p` at the same
x-coordinate `(C - B*p.2)/A`. -/
theorem crossesRay_collinear {A B C : ℚ} (hA : A ≠ 0) {p a b : Pt}
    (hla : A * a.1 + B * a.2 = C) (hlb : A * b.1 + B * b.2 = C) :
    crossesRay p a b =
      ((decide (p.2 < a.2) != decide (p.2 < b.2)) &&
        decide (p.1 < (C - B * p.2) / A)) := by
  by_cases hstr : (decide (p.2 < a.2) != decide (p.2 < b.2)) = true
  · have hd := straddle_y_ne hstr
    have hinter : a.1 + (p.2 - a.2) * (b.1 - a.1) / (b.2 - a.2) =
        (C - B * p.2) / A := by
      field_simp
      linear_combination (b.2 - p.2) * hla + (p.2 - a.2) * hlb
    unfold crossesRay
    rw [hstr, hinter, Bool.true_and]
  · have hf := Bool.eq_false_iff.mpr hstr
    rw [crossesRay_eq_false_of_not_straddle hf, hf, Bool.false_and]

/-- A zero-area polygon — all vertices on one line — contains no point under
the even-odd rule. -/
theorem containsPoint_false_of_collinear (poly : List Pt) (p : Pt)
    (A B C : ℚ) (hAB : A ≠ 0 ∨ B ≠ 0)
    (hline : ∀ v ∈ poly, A * v.1 + B * v.2 = C) :
    containsPoint poly p = false := by
  by_cases hA : A = 0
  · have hB : B ≠ 0 := by
      rcases hAB with h | h
      · exact absurd hA h
      · exact h
    refine containsPoint_eq_false_of_no_cross fun e he => ?_
    obtain ⟨h1, h2⟩ := mem_closedEdges he
    have hy1 := hline _ h1
    have hy2 := hline _ h2
    rw [hA, zero_mul, zero_add] at hy1 hy2
    have : e.1.2 = e.2.2 :=
      mul_left_cancel₀ hB (hy1.trans hy2.symm)
    exact crossesRay_eq_false_of_not_straddle (not_straddle_of_eq_y this)
  · by_cases hk : decide (p.1 < (C - B * p.2) / A) = true
    · unfold containsPoint
      have hcong : ∀ e ∈ closedEdges poly,
          (crossesRay p e.1 e.2 = true) ↔
            ((decide (p.2 < e.1.2) != decide (p.2 < e.2.2)) = true) := by
        intro e he
        obtain ⟨h1, h2⟩ := mem_closedEdges he
        rw [crossesRay_collinear hA (hline _ h1) (hline _ h2), hk, Bool.and_true]
      rw [List.countP_congr hcong,
        closedEdges_countP_flips_even (fun v => decide (p.2 < v.2)) poly]
      rfl
    · refine containsPoint_eq_false_of_no_cross fun e he => ?_
      obtain ⟨h1, h2⟩ := mem_closedEdges he
      rw [crossesRay_collinear hA (hline _ h1) (hline _ h2),
        Bool.eq_false_iff.mpr hk, Bool.and_false]

/-- Any list of fewer than three points is collinear. -/
theorem short_list_collinear (poly : List Pt) (h : poly.length < 3) :
    ∃ A B C : ℚ, (A ≠ 0 ∨ B ≠ 0) ∧ ∀ v ∈ poly, A * v.1 + B * v.2 = C := by
  match poly, h with
  | [], _ => exact ⟨1, 0, 0, Or.inl one_ne_zero, by simp⟩
  | [a], _ => exact ⟨1, 0, a.1, Or.inl one_ne_zero, by simp⟩
  | [a, b], _ =>
      by_cases hab : a = b
      · subst hab
        exact ⟨1, 0, a.1, Or.inl one_ne_zero, by simp⟩
      · refine ⟨b.2 - a.2, a.1 - b.1, (b.2 - a.2) * a.1 + (a.1 - b.1) * a.2,
          ?_, ?_⟩
        · by_cases hx : a.1 - b.1 = 0
          · left
            intro hy
            exact hab (Prod.ext (by linarith) (by linarith))
          · exact Or.inr hx
        · intro v hv
          rcases List.mem_pair.mp hv with rfl | rfl
          · rfl
          · ring

/-! ### Extraction pipeline lemmas -/

theorem flatMap_congr_fun {l : List α} {f g : α → List β}
    (h : ∀ a, f a = g a) : l.flatMap f = l.flatMap g := by
  induction l with
  | nil => rfl
  | cons a t ih => simp only [List.flatMap_cons, h a, ih]

/-- Row-major characterisation of `extract_pixels_from_polygon`: one triple
of records, R then G then B, for every grid point the even-odd test accepts,
in increasing `y` then increasing `x` order. -/
theorem extract_eq (image : Raster) (polygon : List Pt) (lab fn : String) :
    extract_pixels_from_polygon image polygon lab fn =
      (List.range image.height).flatMap fun y =>
        (List.range image.width).flatMap fun x =>
          if containsPoint polygon ((x : ℚ), (y : ℚ)) then
            [⟨fn, lab, "R", x, y, image.data y x 0⟩,
             ⟨fn, lab, "G", x, y, image.data y x 1⟩,
             ⟨fn, lab, "B", x, y, image.data y x 2⟩]
          else []
  := by
  simp only [extract_pixels_from_polygon, flatMap_of_filter, List.flatMap_assoc,
    List.flatMap_map]
  refine flatMap_congr_fun fun y => flatMap_congr_fun fun x => ?_
  split <;> rfl

/-- Every record extracted carries in-bounds pixel coordinates. -/
theorem extract_mem_bounds (image : Raster) (polygon : List Pt) (lab fn : String) :
    ∀ r ∈ extract_pixels_from_polygon image polygon lab fn,
      r.x < image.width ∧ r.y < image.height := by
  intro r hr
  rw [extract_eq] at hr
  obtain ⟨y, hy, hr⟩ := List.mem_flatMap.mp hr
  obtain ⟨x, hx, hr⟩ := List.mem_flatMap.mp hr
  rw [List.mem_range] at hy hx
  by_cases hc : containsPoint polygon ((x : ℚ), (y : ℚ)) = true
  · rw [if_pos hc] at hr
    simp only [List.mem_cons, List.not_mem_nil, or_false] at hr
    rcases hr with rfl | rfl | rfl <;> exact ⟨hx, hy⟩
  · rw [if_neg hc] at hr
    simp at hr

/-- The export loop concatenates the per-ROI extractions in collection order
and reports `len(roi_data) // 3` per ROI. -/
theorem export_data_eq (rgb : Raster) (rois : List ROI) (fn : String) :
    export_data rgb rois fn =
      (rois.flatMap fun roi =>
         extract_pixels_from_polygon rgb roi.polygon roi.label fn,
       rois.map fun roi =>
         (extract_pixels_from_polygon rgb roi.polygon roi.label fn).length / 3) := by
  unfold export_data
  suffices h : ∀ (rs : List ROI) (acc : List PixelRecord × List Nat),
      rs.foldl
        (fun acc roi =>
          let roi_data := extract_pixels_from_polygon rgb roi.polygon roi.label fn
          (acc.1 ++ roi_data, acc.2 ++ [roi_data.length / 3])) acc =
        (acc.1 ++ rs.flatMap fun roi =>
           extract_pixels_from_polygon rgb roi.polygon roi.label fn,
         acc.2 ++ rs.map fun roi =>
           (extract_pixels_from_polygon rgb roi.polygon roi.label fn).length / 3) by
    simpa using h rois ([], [])
  intro rs
  induction rs with
  | nil => simp
  | cons r t ih =>
      intro acc
      rw [List.foldl_cons, ih]
      simp [List.flatMap_cons]

/-! ### Counting records per pixel -/

theorem countP_range_eq_one {a w : Nat} (ha : a < w) :
    (List.range w).countP (fun x => decide (x = a)) = 1 := by
  have h := List.count_eq_one_of_mem (List.nodup_range w) (List.mem_range.mpr ha)
  rw [List.count_eq_countP] at h
  rw [← h]
  refine List.countP_congr fun x _ => ?_
  simp only [decide_eq_true_eq, beq_iff_eq]

/-- Each in-bounds grid point occurs exactly once in the row-major pixel
enumeration. -/
theorem grid_countP_eq_one {h w a b : Nat} (ha : a < w) (hb : b < h) :
    ((List.range h).flatMap fun y => (List.range w).map fun x => (x, y)).countP
      (fun q => decide (q = (a, b))) = 1 := by
  rw [List.countP_flatMap]
  have hrow : ∀ y, ((List.range w).map fun x => (x, y)).countP
      (fun q => decide (q = (a, b))) = if y = b then 1 else 0 := by
    intro y
    rw [List.countP_map]
    by_cases hy : y = b
    · subst hy
      rw [if_pos rfl, ← countP_range_eq_one ha]
      refine List.countP_congr fun x _ => ?_
      simp [Prod.ext_iff]
    · rw [if_neg hy]
      rw [List.countP_eq_zero]
      intro x _
      simp [Prod.ext_iff, hy]
  have hmap : (List.range h).map
      ((List.countP fun q => decide (q = (a, b))) ∘ fun y => (List.range w).map fun x => (x, y)) =
      (List.range h).map fun y => if decide (y = b) = true then 1 else 0 := by
    refine List.map_congr_left fun y _ => ?_
    rw [Function.comp_apply, hrow y]
    by_cases hy : y = b <;> simp [hy]
  rw [hmap, sum_map_ite_one, countP_range_eq_one hb]

/-- Among the three channel records emitted for one grid point, exactly one
matches a given coordinate-and-channel query, and only when the grid point is
the queried pixel. -/
theorem records_countP (fn lab : String) (image : Raster) (q : Nat × Nat)
    (a b : Nat) (ch : String) (hch : ch = "R" ∨ ch = "G" ∨ ch = "B") :
    ((List.range 3).map fun c =>
      ({ file_name := fn, roi_label := lab, channel := channelName c,
         x := q.1, y := q.2, pixel_value := image.data q.2 q.1 c } : PixelRecord)).countP
      (fun r => decide (r.x = a) && decide (r.y = b) && decide (r.channel = ch)) =
    if q = (a, b) then 1 else 0 := by
  show (List.countP _ [_, _, _]) = _
  by_cases hq : q = (a, b)
  · obtain ⟨h1, h2⟩ := Prod.ext_iff.mp hq
    rw [if_pos hq]
    rcases hch with rfl | rfl | rfl <;>
      simp [List.countP_cons, h1, h2, channelName]
  · rw [if_neg hq]
    have : ¬(q.1 = a ∧ q.2 = b) := fun h => hq (Prod.ext h.1 h.2)
    rw [List.countP_eq_zero]
    intro r hr
    simp only [List.mem_cons, List.not_mem_nil, or_false] at hr
    rcases hr with rfl | rfl | rfl <;>
      · simp only [Bool.and_eq_true, decide_eq_true_eq]
        rintro ⟨⟨hx, hy⟩, -⟩
        exact this ⟨hx, hy⟩

/-- The number of records a single extraction emits for a fixed in-bounds
pixel and channel is 1 or 0 according to containment. -/
theorem extract_countP (image : Raster) (polygon : List Pt) (lab fn : String)
    (a b : Nat) (ch : String) (ha : a < image.width) (hb : b < image.height)
    (hch : ch = "R" ∨ ch = "G" ∨ ch = "B") :
    (extract_pixels_from_polygon image polygon lab fn).countP
      (fun r => decide (r.x = a) && decide (r.y = b) && decide (r.channel = ch)) =
    if containsPoint polygon ((a : ℚ), (b : ℚ)) = true then 1 else 0 := by
  unfold extract_pixels_from_polygon
  rw [List.countP_flatMap]
  have hmap : ∀ (l : List (Nat × Nat)), l.map
      ((List.countP fun r => decide (r.x = a) && decide (r.y = b) && decide (r.channel = ch)) ∘
        fun q => (List.range 3).map fun c =>
          ({ file_name := fn, roi_label := lab, channel := channelName c,
             x := q.1, y := q.2, pixel_value := image.data q.2 q.1 c } : PixelRecord)) =
      l.map fun q => if decide (q = (a, b)) = true then 1 else 0 := by
    intro l
    refine List.map_congr_left fun q _ => ?_
    rw [Function.comp_apply, records_countP fn lab image q a b ch hch]
    by_cases hq : q = (a, b) <;> simp [hq]
  rw [hmap, sum_map_ite_one, List.countP_filter]
  by_cases hc : containsPoint polygon ((a : ℚ), (b : ℚ)) = true
  · rw [if_pos hc]
    have : ((List.range image.height).flatMap fun y =>
        (List.range image.width).map fun x => (x, y)).countP
        (fun q => decide (q = (a, b)) &&
          containsPoint polygon ((q.1 : ℚ), (q.2 : ℚ))) =
        ((List.range image.height).flatMap fun y =>
          (List.range image.width).map fun x => (x, y)).countP
        (fun q => decide (q = (a, b))) := by
      refine List.countP_congr fun q _ => ?_
      constructor
      · rintro h
        simp only [Bool.and_eq_true] at h
        exact h.1
      · rintro h
        rw [decide_eq_true_eq] at h
        subst h
        simp [hc]
    rw [this, grid_countP_eq_one ha hb]
  · rw [if_neg hc, List.countP_eq_zero]
    intro q _
    simp only [Bool.and_eq_true, decide_eq_true_eq]
    rintro ⟨rfl, hcq⟩
    exact hc hcq

/-! ### Persistence lemmas -/

theorem pointOfJson_pointToJson (v : Pt) : pointOfJson (pointToJson v) = some v :=
  rfl

theorem mapM_pointOfJson (poly : List Pt) :
    (poly.map pointToJson).mapM pointOfJson = some poly := by
  induction poly with
  | nil => rfl
  | cons v t ih =>
      rw [List.map_cons, List.mapM_cons, pointOfJson_pointToJson, ih]
      rfl

theorem roiOfJson_roiToJson (roi : ROI) : roiOfJson (roiToJson roi) = some roi := by
  show (((roi.polygon.map pointToJson).mapM pointOfJson).map
    fun poly => (⟨roi.label, poly⟩ : ROI)) = some roi
  rw [mapM_pointOfJson]
  rfl

theorem mapM_roiOfJson (rois : List ROI) :
    (rois.map roiToJson).mapM roiOfJson = some rois := by
  induction rois with
  | nil => rfl
  | cons r t ih =>
      rw [List.map_cons, List.mapM_cons, roiOfJson_roiToJson, ih]
      rfl

/-- What `load_rois` does to a value produced by `save_rois_to_json`: never
an error, the mismatch warning iff the stored and open file names differ, the
ROI dicts stored unchanged, and the persisted white balance applied exactly
when the session had none. -/
theorem load_rois_save_rois (fn n : String) (rois : List ROI)
    (wb cw : Option (ℚ × ℚ × ℚ)) :
    load_rois (save_rois_data fn rois wb) n cw =
      .ok ⟨fn != n, .arr (rois.map roiToJson),
           (match wb, cw with
            | some w, none => some w
            | _, _ => cw), false⟩ := by
  cases wb with
  | none =>
      cases cw with
      | none => rfl
      | some w => rfl
  | some w =>
      obtain ⟨r, g, b⟩ := w
      cases cw with
      | none => rfl
      | some w' => rfl

/-! ### White-balance sampling window -/

/-- The claim's description of the sampling region: the indices of one axis
that fall inside a square window of half-width 2 centred at `c`, clamped to
the raster bound.  This is the spec-side definition, compared below with the
slice the code takes. -/
def specClampedWindow (bound : Nat) (c : ℤ) : List Nat :=
  (List.range bound).filter fun i => decide (c - 2 ≤ (i : ℤ)) && decide ((i : ℤ) ≤ c + 2)

/-- The claim's description of `sample_white_point`: the per-channel average
over the clamped 5×5 window centred at `(x, y)`.  Spec-side definition for
the refinement comparison. -/
def specWindowMean (image : Raster) (x y : ℤ) (ch : Nat) : ℚ :=
  let xs := specClampedWindow image.width x
  let ys := specClampedWindow image.height y
  ((ys.flatMap fun yi => xs.map fun xi => image.data yi xi ch).sum : ℤ) /
    ((ys.length * xs.length : Nat) : ℚ)

theorem filter_range_eq_range' (n lo hi : Nat) :
    (List.range n).filter (fun i => decide (lo ≤ i) && decide (i < hi)) =
      List.range' lo (min hi n - lo) := by
  induction n with
  | zero =>
      rw [List.range_zero, List.filter_nil, Nat.min_zero, Nat.zero_sub]
      rfl
  | succ m ih =>
      rw [List.range_succ, List.filter_append, ih]
      by_cases hlo : lo ≤ m
      · by_cases hhi : m < hi
        · have hmin : min hi (m + 1) - lo = (min hi m - lo) + 1 := by omega
          have helem : List.filter (fun i => decide (lo ≤ i) && decide (i < hi)) [m]
              = [m] := by simp [hlo, hhi]
          rw [helem, hmin, List.range'_concat]
          have : lo + 1 * (min hi m - lo) = m := by omega
          rw [this]
        · have hmin : min hi (m + 1) = min hi m := by omega
          have helem : List.filter (fun i => decide (lo ≤ i) && decide (i < hi)) [m]
              = [] := by simp [hhi]
          rw [helem, hmin, List.append_nil]
      · have hmin : min hi (m + 1) - lo = min hi m - lo := by omega
        have helem : List.filter (fun i => decide (lo ≤ i) && decide (i < hi)) [m]
            = [] := by simp [hlo]
        rw [helem, hmin, List.append_nil]

/-- For an in-bounds coordinate, the slice the code takes is exactly the
clamped window of the spec. -/
theorem pySlice_eq_specWindow (bound : Nat) (c : ℤ) (h0 : 0 ≤ c)
    (hb : c < bound) :
    pySliceIndices bound (max 0 (c - 2)) (min (bound : ℤ) (c + 2 + 1)) =
      specClampedWindow bound c := by
  unfold pySliceIndices specClampedWindow
  have hnn1 : ¬ max 0 (c - 2) < (0 : ℤ) := by omega
  have hnn2 : ¬ min (bound : ℤ) (c + 2 + 1) < 0 := by omega
  simp only [if_neg hnn1, if_neg hnn2]
  have hpred : (List.range bound).filter
      (fun (i : ℕ) => decide (c - 2 ≤ (i : ℤ)) && decide ((i : ℤ) ≤ c + 2)) =
      (List.range bound).filter
      (fun (i : ℕ) => decide ((max 0 (c - 2)).toNat ≤ i) &&
        decide (i < (min (bound : ℤ) (c + 2 + 1)).toNat)) := by
    refine List.filter_congr fun i hi => ?_
    rw [List.mem_range] at hi
    have h1 : (c - 2 ≤ (i : ℤ)) ↔ ((max 0 (c - 2)).toNat ≤ i) := by omega
    have h2 : ((i : ℤ) ≤ c + 2) ↔ (i < (min (bound : ℤ) (c + 2 + 1)).toNat) := by
      omega
    rw [decide_eq_decide.mpr h1, decide_eq_decide.mpr h2]
  rw [hpred, filter_range_eq_range']
  congr 1 <;> omega

/-- For an in-bounds sample point the code's slice windows are the spec's
clamped windows, both axes. -/
theorem calculate_white_balance_inbounds (image : Raster) (x y : ℤ)
    (hx0 : 0 ≤ x) (hx : x < image.width) (hy0 : 0 ≤ y) (hy : y < image.height) :
    calculate_white_balance image x y 5 =
      derive_multipliers (specWindowMean image x y 0) (specWindowMean image x y 1)
        (specWindowMean image x y 2) := by
  have h2 : Int.fdiv 5 2 = 2 := rfl
  have hxs := pySlice_eq_specWindow image.width x hx0 hx
  have hys := pySlice_eq_specWindow image.height y hy0 hy
  have hxmem : x.toNat ∈ specClampedWindow image.width x := by
    refine List.mem_filter.mpr ⟨List.mem_range.mpr (by omega), ?_⟩
    rw [Bool.and_eq_true, decide_eq_true_eq, decide_eq_true_eq]
    omega
  have hymem : y.toNat ∈ specClampedWindow image.height y := by
    refine List.mem_filter.mpr ⟨List.mem_range.mpr (by omega), ?_⟩
    rw [Bool.and_eq_true, decide_eq_true_eq, decide_eq_true_eq]
    omega
  have hn : (specClampedWindow image.height y).length *
      (specClampedWindow image.width x).length ≠ 0 := by
    have h1 : (specClampedWindow image.width x).length ≠ 0 :=
      List.length_pos.mpr (List.ne_nil_of_mem hxmem) |>.ne'
    have h1' : (specClampedWindow image.height y).length ≠ 0 :=
      List.length_pos.mpr (List.ne_nil_of_mem hymem) |>.ne'
    exact Nat.mul_ne_zero h1' h1
  unfold calculate_white_balance
  simp only [h2, hxs, hys]
  rw [if_neg hn]
  rfl

/-- A sample point at least two columns beyond the right edge: the x-slice is
empty, the means are NaN, and the code returns the identity multipliers. -/
theorem calculate_white_balance_far_right (image : Raster) (x y : ℤ)
    (hx : (image.width : ℤ) + 2 ≤ x) :
    calculate_white_balance image x y 5 = (1, 1, 1) := by
  have h2 : Int.fdiv 5 2 = 2 := rfl
  have hxs : pySliceIndices image.width (max 0 (x - 2))
      (min (image.width : ℤ) (x + 2 + 1)) = [] := by
    unfold pySliceIndices
    have hnn1 : ¬ max 0 (x - 2) < (0 : ℤ) := by omega
    have hnn2 : ¬ min (image.width : ℤ) (x + 2 + 1) < 0 := by omega
    simp only [if_neg hnn1, if_neg hnn2]
    have hzero : ((min (max (min (image.width : ℤ) (x + 2 + 1)) 0) image.width) -
        (min (max (max 0 (x - 2)) 0) image.width)).toNat = 0 := by omega
    rw [hzero]
    rfl
  have hn : ∀ m : Nat, m * ([] : List Nat).length = 0 := by
    intro m
    simp
  unfold calculate_white_balance
  simp only [h2, hxs, List.length_nil, Nat.mul_zero]
  simp

theorem jsonGet_cons_ne (k : String) (v : JValue)
    (fields : List (String × JValue)) (key : String) (h : k ≠ key) :
    jsonGet ((k, v) :: fields) key = jsonGet fields key := by
  unfold jsonGet
  rw [List.find?_cons_of_neg]
  simp [h]

/-! ### Claim theorems -/

/-- C1: For every raster of shape height × width × 3 and every polygon with
at least 3 vertices, `extract_pixels_from_polygon` returns, in row-major
order (increasing y, then increasing x), exactly three records — channels R
then G then B — per grid point `(x, y)` with `0 ≤ x < width`,
`0 ≤ y < height` whose literal integer coordinate passes the even-odd
ray-casting containment test, each record carrying `raster[y, x, channel]`
with the given label and file name; no other records are produced, and every
record's coordinates are in bounds. -/
theorem C1_extract_rowmajor_rgb_triples (image : Raster) (polygon : List Pt)
    (lab fn : String) (_hlen : 3 ≤ polygon.length) :
    extract_pixels_from_polygon image polygon lab fn =
      ((List.range image.height).flatMap fun y =>
        (List.range image.width).flatMap fun x =>
          if containsPoint polygon ((x : ℚ), (y : ℚ)) then
            [{ file_name := fn, roi_label := lab, channel := "R", x := x, y := y,
               pixel_value := image.data y x 0 },
             { file_name := fn, roi_label := lab, channel := "G", x := x, y := y,
               pixel_value := image.data y x 1 },
             { file_name := fn, roi_label := lab, channel := "B", x := x, y := y,
               pixel_value := image.data y x 2 }]
          else []) ∧
    ∀ r ∈ extract_pixels_from_polygon image polygon lab fn,
      r.x < image.width ∧ r.y < image.height :=
  ⟨extract_eq image polygon lab fn, extract_mem_bounds image polygon lab fn⟩

theorem C1_witness :
    3 ≤ testTriangle.length ∧
    (extract_pixels_from_polygon testImage testTriangle "roi" "f.NEF" =
      ((List.range testImage.height).flatMap fun y =>
        (List.range testImage.width).flatMap fun x =>
          if containsPoint testTriangle ((x : ℚ), (y : ℚ)) then
            [{ file_name := "f.NEF", roi_label := "roi", channel := "R", x := x,
               y := y, pixel_value := testImage.data y x 0 },
             { file_name := "f.NEF", roi_label := "roi", channel := "G", x := x,
               y := y, pixel_value := testImage.data y x 1 },
             { file_name := "f.NEF", roi_label := "roi", channel := "B", x := x,
               y := y, pixel_value := testImage.data y x 2 }]
          else []) ∧
      ∀ r ∈ extract_pixels_from_polygon testImage testTriangle "roi" "f.NEF",
        r.x < testImage.width ∧ r.y < testImage.height) :=
  ⟨by decide,
   C1_extract_rowmajor_rgb_triples testImage testTriangle "roi" "f.NEF" (by decide)⟩

/-- C2: extraction returns no records, and no error, for any ROI whose
polygon contains no pixel centres — in particular a polygon with fewer than
3 vertices, a polygon lying entirely outside the raster bounds (all vertices
strictly beyond one side), or a zero-area polygon (all vertices collinear).
The embedded `extract_pixels_from_polygon` is total, so producing `[]` is
the no-error behaviour. -/
theorem C2_degenerate_or_outside_is_empty (image : Raster) (polygon : List Pt)
    (lab fn : String)
    (h : (∀ x y : Nat, x < image.width → y < image.height →
        containsPoint polygon ((x : ℚ), (y : ℚ)) = false) ∨
      polygon.length < 3 ∨
      ((∀ v ∈ polygon, v.1 < 0) ∨ (∀ v ∈ polygon, (image.width : ℚ) ≤ v.1) ∨
       (∀ v ∈ polygon, v.2 < 0) ∨ (∀ v ∈ polygon, (image.height : ℚ) ≤ v.2)) ∨
      (∃ A B C : ℚ, (A ≠ 0 ∨ B ≠ 0) ∧ ∀ v ∈ polygon, A * v.1 + B * v.2 = C)) :
    extract_pixels_from_polygon image polygon lab fn = [] := by
  have hfalse : ∀ x y : Nat, x < image.width → y < image.height →
      containsPoint polygon ((x : ℚ), (y : ℚ)) = false := by
    intro x y hx hy
    rcases h with hnone | hlen | houts | ⟨A, B, C, hAB, hline⟩
    · exact hnone x y hx hy
    · obtain ⟨A, B, C, hAB, hline⟩ := short_list_collinear polygon hlen
      exact containsPoint_false_of_collinear polygon _ A B C hAB hline
    · rcases houts with h1 | h1 | h1 | h1
      · exact containsPoint_false_of_x_le fun v hv =>
          le_of_lt (lt_of_lt_of_le (h1 v hv) (Nat.cast_nonneg x))
      · exact containsPoint_false_of_x_lt fun v hv =>
          lt_of_lt_of_le ((Nat.cast_lt (α := ℚ)).mpr hx) (h1 v hv)
      · exact containsPoint_false_of_y_le fun v hv =>
          le_of_lt (lt_of_lt_of_le (h1 v hv) (Nat.cast_nonneg y))
      · exact containsPoint_false_of_y_lt fun v hv =>
          lt_of_lt_of_le ((Nat.cast_lt (α := ℚ)).mpr hy) (h1 v hv)
    · exact containsPoint_false_of_collinear polygon _ A B C hAB hline
  rw [extract_eq]
  rw [List.flatMap_eq_nil_iff]
  intro y hy
  rw [List.flatMap_eq_nil_iff]
  intro x hx
  rw [List.mem_range] at hx hy
  rw [if_neg]
  rw [hfalse x y hx hy]
  exact Bool.false_ne_true

theorem C2_witness :
    (∀ v ∈ farTriangle, (testImage.width : ℚ) ≤ v.1) ∧
    extract_pixels_from_polygon testImage farTriangle "roi" "f.NEF" = [] :=
  ⟨by decide,
   C2_degenerate_or_outside_is_empty testImage farTriangle "roi" "f.NEF"
     (Or.inr (Or.inr (Or.inl (Or.inr (Or.inl (by decide))))))⟩

/-- C3: `export_data` concatenates the per-ROI extractions in collection
order, reports `len(records) / 3` contained pixels per ROI, and an in-bounds
pixel contributes, per channel, exactly one record for each ROI containing
it — duplicated across overlapping ROIs, never deduplicated. -/
theorem C3_export_order_counts_overlap (rgb : Raster) (rois : List ROI)
    (fn : String) :
    ((export_data rgb rois fn).1 =
      rois.flatMap fun roi =>
        extract_pixels_from_polygon rgb roi.polygon roi.label fn) ∧
    ((export_data rgb rois fn).2 =
      rois.map fun roi =>
        (extract_pixels_from_polygon rgb roi.polygon roi.label fn).length / 3) ∧
    ∀ (a b : Nat) (ch : String), a < rgb.width → b < rgb.height →
      (ch = "R" ∨ ch = "G" ∨ ch = "B") →
      (export_data rgb rois fn).1.countP
        (fun r => decide (r.x = a) && decide (r.y = b) && decide (r.channel = ch)) =
      rois.countP fun roi => containsPoint roi.polygon ((a : ℚ), (b : ℚ)) := by
  refine ⟨by rw [export_data_eq], by rw [export_data_eq], ?_⟩
  intro a b ch ha hb hch
  rw [export_data_eq]
  show (rois.flatMap fun roi =>
    extract_pixels_from_polygon rgb roi.polygon roi.label fn).countP _ = _
  rw [List.countP_flatMap]
  have hmap : rois.map
      ((List.countP fun r => decide (r.x = a) && decide (r.y = b) &&
          decide (r.channel = ch)) ∘
        fun roi => extract_pixels_from_polygon rgb roi.polygon roi.label fn) =
      rois.map fun roi =>
        if containsPoint roi.polygon ((a : ℚ), (b : ℚ)) then 1 else 0 := by
    refine List.map_congr_left fun roi _ => ?_
    rw [Function.comp_apply,
      extract_countP rgb roi.polygon roi.label fn a b ch ha hb hch]
  rw [hmap, sum_map_ite_one]

theorem C3_witness :
    (1 < testImage.width ∧ 1 < testImage.height) ∧
    ((export_data testImage testRois "f.NEF").1.countP
      (fun r => decide (r.x = 1) && decide (r.y = 1) && decide (r.channel = "R")) =
      testRois.countP fun roi => containsPoint roi.polygon ((1 : ℚ), (1 : ℚ))) ∧
    (testRois.countP fun roi => containsPoint roi.polygon ((1 : ℚ), (1 : ℚ))) = 2 :=
  ⟨by decide,
   (C3_export_order_counts_overlap testImage testRois "f.NEF").2.2 1 1 "R"
     (by decide) (by decide) (Or.inl rfl),
   by
    have h1 : containsPoint testSquare (1, 1) = true := by
      norm_num [containsPoint, closedEdges, adjPairs, crossesRay, testSquare,
        List.countP, List.countP.go]
    have h2 : containsPoint testTriangle (1, 1) = true := by
      norm_num [containsPoint, closedEdges, adjPairs, crossesRay, testTriangle,
        List.countP, List.countP.go]
    simp only [show ((1 : ℚ), (1 : ℚ)) = (1 : ℚ × ℚ) from rfl] at h1 h2
    simp [testRois, List.countP_cons, h1, h2]⟩

/-- C4: deserialising the serialised persisted form restores the session —
no mismatch warning against the original file name, the stored ROI dicts
decode back to the original labelled polygons in order, and the optional
white balance survives; when no white balance is set the serialised object
omits the `white_balance` key entirely. -/
theorem C4_roundtrip (c : ROICollection) :
    (load_rois (serializeCollection c) c.file_name none =
      .ok ⟨false, .arr (c.rois.map roiToJson), c.white_balance, false⟩) ∧
    ((c.rois.map roiToJson).mapM roiOfJson = some c.rois) ∧
    (c.white_balance = none →
      serializeCollection c =
        .obj [("file_name", .str c.file_name),
              ("rois", .arr (c.rois.map roiToJson))]) := by
  refine ⟨?_, mapM_roiOfJson c.rois, ?_⟩
  · unfold serializeCollection
    rw [load_rois_save_rois]
    cases hwb : c.white_balance <;> simp [bne_self_eq_false]
  · intro h
    unfold serializeCollection save_rois_data
    rw [h]

theorem C4_witness :
    (load_rois (serializeCollection testCollection) testCollection.file_name none =
      .ok ⟨false, .arr (testCollection.rois.map roiToJson),
           testCollection.white_balance, false⟩) ∧
    ((testCollection.rois.map roiToJson).mapM roiOfJson =
      some testCollection.rois) ∧
    (serializeCollection ⟨"f.NEF", [], none⟩ =
      .obj [("file_name", .str "f.NEF"), ("rois", .arr [])]) := by
  have h1 := C4_roundtrip testCollection
  have h2 := C4_roundtrip ⟨"f.NEF", [], none⟩
  exact ⟨h1.1, h1.2.1, h2.2.2 rfl⟩

/-- C5 counterexample: the claim says deserialisation fails exactly when a
required structural field is absent.  Here every schema field is present —
`file_name` matches the open image, `rois` is a list — yet the load fails,
because the present-but-malformed `white_balance` value `5` is truthy and not
subscriptable: `wb_data["red"]` raises `TypeError`, which the inner
`except (KeyError, ValueError)` does not catch, so the outer handler aborts
the whole load. -/
theorem C5_counterexample :
    (load_rois (.obj [("file_name", .str "IMG.NEF"), ("rois", .arr []),
      ("white_balance", .num 5)]) "IMG.NEF" none).isError = true := rfl

/-- C5 amended: loading has no required fields at all — a missing
`white_balance` is tolerated (white balance left as it was, no failure), a
missing `rois` defaults to the empty list, a missing `file_name` merely
raises the mismatch warning (it mismatches every open file name), unknown
extra fields are ignored, and the file-name comparison can never cause a
failure; the load fails only when the top level is not an object (handled
separately by the `load_rois` equations) or when a present, truthy
`white_balance` value is reached with no white balance set and its parse
raises `TypeError`. -/
theorem C5_amended_no_required_fields (fields : List (String × JValue))
    (n n' : String) (cw : Option (ℚ × ℚ × ℚ)) (k : String) (v : JValue) :
    (jsonGet fields "white_balance" = none →
      (load_rois (.obj fields) n cw).isError = false ∧
      (load_rois (.obj fields) n cw).state.white_balance = cw) ∧
    (jsonGet fields "rois" = none →
      (load_rois (.obj fields) n cw).state.rois_data = .arr []) ∧
    (jsonGet fields "file_name" = none →
      (load_rois (.obj fields) n cw).state.warned_mismatch = true) ∧
    ((k ≠ "file_name" ∧ k ≠ "rois" ∧ k ≠ "white_balance") →
      load_rois (.obj ((k, v) :: fields)) n cw = load_rois (.obj fields) n cw) ∧
    ((load_rois (.obj fields) n cw).isError =
      (load_rois (.obj fields) n' cw).isError) ∧
    ((load_rois (.obj fields) n cw).isError = true →
      ∃ w, jsonGet fields "white_balance" = some w ∧
        jTruthy (some w) = true ∧ cw = none) := by
  refine ⟨?_, ?_, ?_, ?_, ?_, ?_⟩
  · intro h
    simp only [load_rois, h, jTruthy, Bool.false_and, Bool.false_eq_true,
      if_false]
    exact ⟨rfl, rfl⟩
  · intro h
    simp only [load_rois, h, Option.getD_none]
    split
    · split <;> rfl
    · rfl
  · intro h
    simp only [load_rois, h]
    split
    · split <;> rfl
    · rfl
  · rintro ⟨h1, h2, h3⟩
    simp only [load_rois, jsonGet_cons_ne k v fields _ h1,
      jsonGet_cons_ne k v fields _ h2, jsonGet_cons_ne k v fields _ h3]
  · simp only [load_rois]
    split
    · split <;> rfl
    · rfl
  · intro h
    rcases hwb : jsonGet fields "white_balance" with _ | w
    · simp only [load_rois, hwb, jTruthy, Bool.false_and, Bool.false_eq_true,
        if_false] at h
      exact absurd h (by simp [LoadOutcome.isError])
    · refine ⟨w, rfl, ?_, ?_⟩
      · by_contra htr
        rw [Bool.not_eq_true] at htr
        simp only [load_rois, hwb, htr, Bool.false_and, Bool.false_eq_true,
          if_false] at h
        exact absurd h (by simp [LoadOutcome.isError])
      · by_contra hcw
        have hnone : cw.isNone = false := by
          rcases cw with _ | w'
          · exact absurd rfl hcw
          · rfl
        simp only [load_rois, hwb, hnone, Bool.and_false, Bool.false_eq_true,
          if_false] at h
        exact absurd h (by simp [LoadOutcome.isError])

theorem C5_witness :
    ((load_rois (.obj [("file_name", .str "IMG.NEF"), ("rois", .arr [])])
        "IMG.NEF" none).isError = false ∧
      (load_rois (.obj [("file_name", .str "IMG.NEF"), ("rois", .arr [])])
        "IMG.NEF" none).state.white_balance = none) ∧
    ((load_rois (.obj []) "IMG.NEF" none).state.rois_data = .arr []) ∧
    ((load_rois (.obj []) "IMG.NEF" none).state.warned_mismatch = true) ∧
    (load_rois (.obj [("extra", .num 7)]) "IMG.NEF" none =
      load_rois (.obj []) "IMG.NEF" none) := by
  have h1 := C5_amended_no_required_fields
    [("file_name", .str "IMG.NEF"), ("rois", .arr [])] "IMG.NEF" "other"
    none "extra" (.num 7)
  have h2 := C5_amended_no_required_fields [] "IMG.NEF" "other" none
    "extra" (.num 7)
  exact ⟨h1.1 rfl, h2.2.1 rfl, h2.2.2.1 rfl,
    h2.2.2.2.1 ⟨by decide, by decide, by decide⟩⟩

/-- C6 counterexample: the claim says `calculate_white_balance` fails with
`CoordinateOutOfRange` iff `(x, y)` is outside the raster and that on
failure no multiplier change is applied.  The code has no failure path at
all: at the out-of-bounds point (10, 0) on a 4×4 raster the slice is empty,
the NaN means fail every guard, and the call returns the ordinary triple
`(1.0, 1.0, 1.0)` — which `apply_white_balance` then assigns
unconditionally. -/
theorem C6_counterexample :
    calculate_white_balance flatImage 10 0 5 = (1, 1, 1) := rfl

/-- C6 amended: `calculate_white_balance` averages each channel over the
square 5×5 window centred at `(x, y)` clamped to the raster bounds and never
errors when the window is clipped at an edge; but it never fails at all —
there is no `CoordinateOutOfRange` in the code.  For an in-bounds point it
returns the green-normalised multipliers of the clamped-window means; for a
point at least two columns beyond the right edge the clipped window is
empty, the NaN means defeat every comparison, and it returns
`(1.0, 1.0, 1.0)` as an ordinary result. -/
theorem C6_amended_window_mean_no_failure (image : Raster) (x y : ℤ) :
    (0 ≤ x → x < image.width → 0 ≤ y → y < image.height →
      calculate_white_balance image x y 5 =
        derive_multipliers (specWindowMean image x y 0)
          (specWindowMean image x y 1) (specWindowMean image x y 2)) ∧
    ((image.width : ℤ) + 2 ≤ x → calculate_white_balance image x y 5 = (1, 1, 1)) :=
  ⟨fun h1 h2 h3 h4 => calculate_white_balance_inbounds image x y h1 h2 h3 h4,
   fun h => calculate_white_balance_far_right image x y h⟩

theorem C6_witness :
    (calculate_white_balance flatImage 1 1 5 =
      derive_multipliers (specWindowMean flatImage 1 1 0)
        (specWindowMean flatImage 1 1 1) (specWindowMean flatImage 1 1 2)) ∧
    calculate_white_balance flatImage 9 2 5 = (1, 1, 1) :=
  ⟨(C6_amended_window_mean_no_failure flatImage 1 1).1
     (by decide) (by decide) (by decide) (by decide),
   (C6_amended_window_mean_no_failure flatImage 9 2).2 (by decide)⟩

/-- C7: `derive_multipliers` normalises against green — the green multiplier
is always 1.0, red is `avg_g/avg_r` when `avg_r > 0` and 1.0 otherwise, blue
is `avg_g/avg_b` when `avg_b > 0` and 1.0 otherwise, the zero-green case
short-circuits to the identity `(1.0, 1.0, 1.0)`, and in particular
`(0, 0, 0) ↦ (1, 1, 1)` and `(100, 200, 50) ↦ (2, 1, 4)`. -/
theorem C7_derive_multipliers_green_normalized (r g b : ℚ) :
    ((derive_multipliers r g b).2.1 = 1) ∧
    (g = 0 → derive_multipliers r g b = (1, 1, 1)) ∧
    (g ≠ 0 → 0 < r → (derive_multipliers r g b).1 = g / r) ∧
    (g ≠ 0 → ¬0 < r → (derive_multipliers r g b).1 = 1) ∧
    (g ≠ 0 → 0 < b → (derive_multipliers r g b).2.2 = g / b) ∧
    (g ≠ 0 → ¬0 < b → (derive_multipliers r g b).2.2 = 1) ∧
    derive_multipliers 0 0 0 = (1, 1, 1) ∧
    derive_multipliers 100 200 50 = (2, 1, 4) := by
  refine ⟨?_, ?_, ?_, ?_, ?_, ?_, ?_, ?_⟩
  · unfold derive_multipliers
    split <;> rfl
  · intro h
    simp [derive_multipliers, h]
  · intro hg hr
    simp [derive_multipliers, hg, hr]
  · intro hg hr
    simp [derive_multipliers, hg, hr]
  · intro hg hb
    simp [derive_multipliers, hg, hb]
  · intro hg hb
    simp [derive_multipliers, hg, hb]
  · simp [derive_multipliers]
  · unfold derive_multipliers
    norm_num

theorem C7_witness :
    ((0 : ℚ) ≠ 0 ∨ ((2 : ℚ) ≠ 0 ∧ 0 < (1 : ℚ) ∧ ¬0 < (0 : ℚ))) ∧
    (derive_multipliers 1 2 0).1 = 2 / 1 ∧
    (derive_multipliers 1 2 0).2.1 = 1 ∧
    (derive_multipliers 1 2 0).2.2 = 1 := by
  have h := C7_derive_multipliers_green_normalized 1 2 0
  refine ⟨Or.inr ⟨by norm_num, by norm_num, by norm_num⟩, ?_, h.1, ?_⟩
  · exact h.2.2.1 (by norm_num) (by norm_num)
  · exact h.2.2.2.2.2.1 (by norm_num) (by norm_num)

/-- C8: a manually supplied `"r,g,b"` white-balance string bypasses sampling
and is normalised exactly like sampled multipliers — every component divided
by `g`, so the green component becomes 1.0 — and the parse fails (returns
no white balance) when `g = 0`; an absent or empty string also yields
none. -/
theorem C8_parse_white_balance_normalizes (r g b : ℚ) :
    parse_white_balance none = none ∧
    (g = 0 → parse_white_balance (some [some r, some g, some b]) = none) ∧
    (g ≠ 0 → parse_white_balance (some [some r, some g, some b]) =
      some (r / g, g / g, b / g)) := by
  refine ⟨rfl, ?_, ?_⟩
  · intro h
    simp [parse_white_balance, h]
  · intro h
    simp [parse_white_balance, h, div_self h]

theorem C8_witness :
    ((2 : ℚ) ≠ 0 ∧ (0 : ℚ) = 0) ∧
    parse_white_balance (some [some 1, some 2, some 3]) =
      some (1 / 2, 2 / 2, 3 / 2) ∧
    parse_white_balance (some [some 1, some 0, some 3]) = none := by
  have h1 := C8_parse_white_balance_normalizes 1 2 3
  have h0 := C8_parse_white_balance_normalizes 1 0 3
  exact ⟨⟨by norm_num, rfl⟩, h1.2.2 (by norm_num), h0.2.1 rfl⟩

/-- C9: for every polygon with at least one vertex, `get_polygon_centroid`
is the arithmetic mean of the vertex coordinates — component-wise, the
centroid times the vertex count equals the coordinate sums — not an
area-weighted centroid: the square `[(0,0),(4,0),(4,4),(0,4)]` yields
`(2, 2)`, and listing one vertex twice shifts the result to `(8/5, 8/5)`
even though the shape (and so any area-weighted centroid) is unchanged. -/
theorem C9_centroid_arithmetic_mean (vs : List Pt) (h : 1 ≤ vs.length) :
    ((get_polygon_centroid vs).1 * (vs.length : ℚ) = (vs.map Prod.fst).sum ∧
     (get_polygon_centroid vs).2 * (vs.length : ℚ) = (vs.map Prod.snd).sum) ∧
    get_polygon_centroid [((0 : ℚ), (0 : ℚ)), (4, 0), (4, 4), (0, 4)] = (2, 2) ∧
    get_polygon_centroid [((0 : ℚ), (0 : ℚ)), (4, 0), (4, 4), (0, 4), (0, 0)] =
      (8 / 5, 8 / 5) := by
  have hlen : ((vs.length : ℚ)) ≠ 0 := by
    rw [Nat.cast_ne_zero]
    omega
  refine ⟨⟨div_mul_cancel₀ _ hlen, div_mul_cancel₀ _ hlen⟩, ?_, ?_⟩
  · show npMeanAxis0 _ = _
    unfold npMeanAxis0
    norm_num
  · show npMeanAxis0 _ = _
    unfold npMeanAxis0
    norm_num

theorem C9_witness :
    1 ≤ testTriangle.length ∧
    ((get_polygon_centroid testTriangle).1 * (testTriangle.length : ℚ) =
      (testTriangle.map Prod.fst).sum ∧
     (get_polygon_centroid testTriangle).2 * (testTriangle.length : ℚ) =
      (testTriangle.map Prod.snd).sum) :=
  ⟨by decide, (C9_centroid_arithmetic_mean testTriangle (by decide)).1⟩

/-- C10: loading a persisted collection never overrides an already-set white
balance — whatever JSON value is loaded and however the load ends, a session
whose white balance is already set keeps it unchanged — while a persisted
block is applied when the session had none. -/
theorem C10_load_never_overrides_wb (j : JValue) (n : String)
    (w : ℚ × ℚ × ℚ) (fn n' : String) (rois : List ROI) (wbt : ℚ × ℚ × ℚ) :
    ((load_rois j n (some w)).state.white_balance = some w) ∧
    ((load_rois (save_rois_data fn rois (some wbt)) n' none).state.white_balance =
      some wbt) := by
  constructor
  · match j with
    | .null | .boolean _ | .num _ | .str _ | .arr _ => rfl
    | .obj fields =>
        simp only [load_rois, Option.isNone_some, Bool.and_false,
          Bool.false_eq_true, if_false]
        rfl
  · rw [load_rois_save_rois]
    rfl

end NefExtractor
